import Mathlib

/-!
Verification of the Resonance voice-to-text orchestration core.

Shallow embedding of the press-to-record / background-transcribe pipeline:
the audio recorder (src/core/audio_recorder.py), the transcriber
(src/core/transcriber.py), the keyboard typer (src/core/keyboard_typer.py),
the hotkey manager (src/core/hotkey_manager.py), the dictionary editor
(src/gui/dictionary_dialog.py) and the controller (src/main.py) are
translated into pure Lean functions; the Qt signal handlers are
sequentialised into a step function over an explicit application state.
-/

namespace Resonance

/-! ## AudioRecorder (src/core/audio_recorder.py)

State of an AudioRecorder object: the recording flag, the audio_queue of
sample chunks pushed by the stream callback, and whether a stream is open.
Samples are abstracted as natural numbers. -/

structure RecorderState where
  recording : Bool
  queue : List (List Nat)
  stream : Bool
  deriving Repr, DecidableEq

def initRecorder : RecorderState :=
  { recording := false, queue := [], stream := false }

/-- start_recording: returns immediately if already recording; otherwise sets
the flag, replaces the queue with a fresh empty one and opens the stream; if
opening the stream fails the flag is reset and the exception propagates
(second component of the result is the raised flag). -/
def start_recording (r : RecorderState) (deviceOk : Bool) : RecorderState × Bool :=
  if r.recording then (r, false)
  else if deviceOk then ({ recording := true, queue := [], stream := true }, false)
  else ({ recording := false, queue := [], stream := r.stream }, true)

/-- The sounddevice callback: appends the incoming chunk to the queue while
the recording flag is set. -/
def recorder_callback (r : RecorderState) (chunk : List Nat) : RecorderState :=
  if r.recording then { r with queue := r.queue ++ [chunk] } else r

/-- stop_recording: returns none and leaves the state untouched when not
recording; otherwise clears the flag, closes the stream, drains the queue and
returns the concatenated samples (none when no chunk was queued). -/
def stop_recording (r : RecorderState) : Option (List Nat) × RecorderState :=
  if !r.recording then (none, r)
  else
    let r' : RecorderState := { recording := false, queue := [], stream := false }
    if r.queue = [] then (none, r')
    else (some r.queue.flatten, r')

/-! ## Transcriber (src/core/transcriber.py) -/

structure TranscriberState where
  modelLoaded : Bool
  deriving Repr, DecidableEq

/-- load_model: returns at once when the model is already loaded; otherwise
attempts the load and re-raises the exception on failure (loadFails models
whether the WhisperModel construction raises). -/
def load_model (t : TranscriberState) (loadFails : Bool) : Except String TranscriberState :=
  if t.modelLoaded then Except.ok t
  else if loadFails then Except.error "Error loading model"
  else Except.ok { modelLoaded := true }

/-- transcribe: ensures the model is loaded (a load failure propagates to the
caller); empty input returns the empty string; an inference error is caught
inside the function, which then returns the empty string; otherwise the
recognised text (inferText) is returned. -/
def transcribe (t : TranscriberState) (data : List Nat) (loadFails inferFails : Bool)
    (inferText : String) : Except String (String × TranscriberState) :=
  match (if t.modelLoaded then Except.ok t else load_model t loadFails) with
  | Except.error e => Except.error e
  | Except.ok t' =>
      if data = [] then Except.ok ("", t')
      else if inferFails then Except.ok ("", t')
      else Except.ok (inferText, t')

/-- Outcome signalled by TranscriptionWorker.run (src/main.py): the finished
signal with the text, or the error signal with the exception message. -/
inductive WorkerSignal where
  | finished (text : String)
  | error (msg : String)
  deriving Repr, DecidableEq

/-- Whether a worker signal is the error signal. -/
def WorkerSignal.isError : WorkerSignal → Bool
  | WorkerSignal.error _ => true
  | WorkerSignal.finished _ => false

/-- TranscriptionWorker.run: calls transcribe and emits finished(text) on
success and error(message) when an exception escapes transcribe. -/
def worker_run (t : TranscriberState) (data : List Nat) (loadFails inferFails : Bool)
    (inferText : String) : WorkerSignal :=
  match transcribe t data loadFails inferFails inferText with
  | Except.ok (text, _) => WorkerSignal.finished text
  | Except.error e => WorkerSignal.error e

/-! ## Session controller (src/main.py, class VTTApplication)

The Qt signal handlers are sequentialised: each external event (hotkey press,
audio chunk, hotkey release, worker finished or error signal, the cleanup and
watchdog timers, passage of time) is processed atomically by a step function.
The state mirrors the fields of VTTApplication together with ghost fields
(spawned worker count, per-worker running log, clock, pending watchdog
deadlines) used to state the temporal claims. -/

inductive TrayState where
  | idle
  | recording
  | transcribing
  deriving Repr, DecidableEq

structure AppState where
  recorder : RecorderState
  /-- transcription_thread: none, or some of its isRunning status. -/
  thread : Option Bool
  /-- transcription_worker is not None. -/
  worker : Bool
  tray : TrayState
  /-- Number of busy notifications shown so far. -/
  busyCount : Nat
  /-- Error messages shown on the tray so far. -/
  errors : List String
  /-- Texts handed to KeyboardTyper.type_text so far. -/
  injected : List String
  /-- Ghost: total number of worker threads ever started. -/
  spawned : Nat
  /-- Ghost: running status of every worker thread ever spawned, in order. -/
  workerLog : List Bool
  /-- Ghost: current time in milliseconds. -/
  clock : Nat
  /-- Pending deadlines of the watchdog single-shot timers, in order. -/
  watchdogDue : List Nat
  deriving Repr, DecidableEq

def initApp : AppState :=
  { recorder := initRecorder, thread := none, worker := false, tray := TrayState.idle,
    busyCount := 0, errors := [], injected := [], spawned := 0, workerLog := [],
    clock := 0, watchdogDue := [] }

/-- Sets the last entry of the worker running log to false. -/
def setLastFalse : List Bool → List Bool
  | [] => []
  | [_] => [false]
  | b :: c :: rest => b :: setLastFalse (c :: rest)

/-- The watchdog delay of the singleShot safety net in start_transcription:
30000 milliseconds. -/
def watchdogDelayMs : Nat := 30000

/-- start_transcription: if the previous thread still runs, a busy
notification is shown, the tray is reset to idle and nothing is started;
otherwise any previous (finished) thread is quit, joined and dropped, the
previous worker is dropped, a fresh worker thread is created and started, and
the 30 s watchdog cleanup is scheduled. -/
def start_transcription (s : AppState) : AppState :=
  if s.thread = some true then
    { s with busyCount := s.busyCount + 1, tray := TrayState.idle }
  else
    { s with thread := some true, worker := true,
             spawned := s.spawned + 1,
             workerLog := s.workerLog ++ [true],
             watchdogDue := s.watchdogDue ++ [s.clock + watchdogDelayMs] }

/-- on_hotkey_press: unconditionally starts the recorder (there is no check of
the transcription state); on success the tray shows the recording state, on a
device failure an error is shown and the tray is left unchanged. -/
def on_hotkey_press (s : AppState) (deviceOk : Bool) : AppState :=
  if (start_recording s.recorder deviceOk).2 then
    { s with recorder := (start_recording s.recorder deviceOk).1,
             errors := s.errors ++ ["Recording failed"] }
  else
    { s with recorder := (start_recording s.recorder deviceOk).1,
             tray := TrayState.recording }

/-- on_hotkey_release: stops the recorder; when no audio was captured (no data
or zero samples) the tray is reset to idle and the handler returns; otherwise
the tray shows the transcribing state and start_transcription is called. -/
def on_hotkey_release (s : AppState) : AppState :=
  match (stop_recording s.recorder).1 with
  | none => { s with recorder := (stop_recording s.recorder).2, tray := TrayState.idle }
  | some samples =>
      if samples = [] then
        { s with recorder := (stop_recording s.recorder).2, tray := TrayState.idle }
      else
        start_transcription
          { s with recorder := (stop_recording s.recorder).2, tray := TrayState.transcribing }

/-- on_transcription_complete: non-empty text is handed to
KeyboardTyper.type_text exactly as received (no correction pass exists in the
pipeline); empty text is only logged; the tray is reset to idle. -/
def on_transcription_complete (s : AppState) (text : String) : AppState :=
  let s' := if text = "" then s else { s with injected := s.injected ++ [text] }
  { s' with tray := TrayState.idle }

/-- on_transcription_error: shows the error on the tray and resets it to
idle. -/
def on_transcription_error (s : AppState) (msg : String) : AppState :=
  { s with errors := s.errors ++ ["Transcription failed: " ++ msg],
           tray := TrayState.idle }

/-- quit_transcription_thread (written _quit_transcription_thread in the
source): quits the worker thread's event loop, so the thread stops running;
freeing the references is deferred to a short timer. -/
def quit_transcription_thread (s : AppState) : AppState :=
  if s.thread = none then s
  else { s with thread := some false, workerLog := setLastFalse s.workerLog }

/-- cleanup_transcription_thread: waits up to two seconds for the thread, then
clears the thread and worker references. The bounded wait joins a thread whose
run has returned, but it cannot stop a worker still blocked inside transcribe:
the references are cleared either way and the worker's own running status is
untouched. -/
def cleanup_transcription_thread (s : AppState) : AppState :=
  if s.thread = none then { s with worker := false }
  else { s with thread := none, worker := false }

/-- force_cleanup_if_stuck: the watchdog body; when a thread reference is
still present it is quit and waited for up to one second — which cannot stop
a worker still blocked inside transcribe — and the normal cleanup then clears
both references, abandoning a still-running worker alive. -/
def force_cleanup_if_stuck (s : AppState) : AppState :=
  if s.thread = none then s
  else cleanup_transcription_thread s

/-- External events driving the controller. The worker signals carry the
payload emitted by TranscriptionWorker.run; they are delivered only while a
worker object exists. -/
inductive Ev where
  | press (deviceOk : Bool)
  | chunk (data : List Nat)
  | release
  | finishSig (text : String)
  | errorSig (msg : String)
  | cleanupTimer
  | watchdog
  | elapse (d : Nat)
  deriving Repr, DecidableEq

/-- One controller step per external event. For a worker signal the connected
slots run in connection order: the completion or error handler first, then
the quit of the worker thread. A watchdog event consumes the oldest pending
deadline and runs force_cleanup_if_stuck. -/
def step (s : AppState) (e : Ev) : AppState :=
  match e with
  | Ev.press deviceOk => on_hotkey_press s deviceOk
  | Ev.chunk data => { s with recorder := recorder_callback s.recorder data }
  | Ev.release => on_hotkey_release s
  | Ev.finishSig text =>
      if s.thread = none then s
      else quit_transcription_thread (on_transcription_complete s text)
  | Ev.errorSig msg =>
      if s.thread = none then s
      else quit_transcription_thread (on_transcription_error s msg)
  | Ev.cleanupTimer => cleanup_transcription_thread s
  | Ev.watchdog =>
      if s.watchdogDue = [] then s
      else force_cleanup_if_stuck { s with watchdogDue := s.watchdogDue.tail }
  | Ev.elapse d => { s with clock := s.clock + d }

/-- Run of the controller from the initial state over a list of events. -/
def runApp (evs : List Ev) : AppState := evs.foldl step initApp

/-- Single-flight invariant of the worker-thread ghost log: when the
referenced thread runs it is the last spawned worker and no earlier one still
runs; otherwise no spawned worker runs at all. It is maintained by the normal
press/release/signal flow; the cleanup timers can break it, because forced
cleanup of a still-running worker abandons it alive. -/
def ThreadInv (s : AppState) : Prop :=
  (s.thread = some true → ∃ pre, s.workerLog = pre ++ [true] ∧ pre.count true = 0) ∧
  (s.thread ≠ some true → s.workerLog.count true = 0)

/-! ## HotkeyManager (src/core/hotkey_manager.py) -/

/-- A pynput key as seen by the hotkey manager: the left/right modifier
variants, or a character key (KeyCode.from_char). -/
inductive PKey where
  | ctrlL
  | ctrlR
  | altL
  | altR
  | shiftL
  | shiftR
  | cmdL
  | cmdR
  | ch (s : String)
  deriving Repr, DecidableEq

/-- Membership test in a key set (the sets of the source are modelled as
duplicate-free lists). -/
def hasKey (cur : List PKey) (k : PKey) : Bool :=
  match cur with
  | [] => false
  | c :: cs => if c = k then true else hasKey cs k

/-- Adding a key to the live key set. -/
def addKey (cur : List PKey) (k : PKey) : List PKey :=
  if hasKey cur k then cur else cur ++ [k]

/-- Removing a key from the live key set (on_key_release removes the key only
when present). -/
def removeKey (cur : List PKey) (k : PKey) : List PKey :=
  match cur with
  | [] => []
  | c :: cs => if c = k then cs else c :: removeKey cs k

/-- Splitting a character list on the plus separator (Python
str.split applied to the plus sign). -/
def splitPlusGo (acc : List Char) : List Char → List (List Char)
  | [] => [acc.reverse]
  | c :: cs => if c = '+' then acc.reverse :: splitPlusGo [] cs else splitPlusGo (c :: acc) cs

/-- Drops leading space characters. -/
def dropSpaces : List Char → List Char
  | [] => []
  | c :: cs => if c = ' ' then dropSpaces cs else c :: cs

/-- Python str.strip on the space-padded ASCII strings involved. -/
def strip (s : String) : String :=
  String.mk ((dropSpaces (dropSpaces s.toList).reverse).reverse)

/-- parse_hotkey_string: lowercases, splits on plus signs, maps the modifier
names onto both physical variants and any other part onto a character key. -/
def parse_hotkey_string (s : String) : List PKey :=
  ((splitPlusGo [] (s.toList.map Char.toLower)).map (fun part => String.mk part)).foldl
    (fun keys part =>
      let part := strip part
      if part = "ctrl" ∨ part = "control" then addKey (addKey keys PKey.ctrlL) PKey.ctrlR
      else if part = "alt" then addKey (addKey keys PKey.altL) PKey.altR
      else if part = "shift" then addKey (addKey keys PKey.shiftL) PKey.shiftR
      else if part = "win" ∨ part = "windows" ∨ part = "cmd" ∨ part = "super" then
        addKey (addKey keys PKey.cmdL) PKey.cmdR
      else addKey keys (PKey.ch part))
    []

/-- Per-required-key test of is_hotkey_pressed: a modifier key is satisfied
by either physical variant, a regular key only by itself. -/
def keyHeld (cur : List PKey) : PKey → Bool
  | PKey.ctrlL => hasKey cur PKey.ctrlL || hasKey cur PKey.ctrlR
  | PKey.ctrlR => hasKey cur PKey.ctrlL || hasKey cur PKey.ctrlR
  | PKey.altL => hasKey cur PKey.altL || hasKey cur PKey.altR
  | PKey.altR => hasKey cur PKey.altL || hasKey cur PKey.altR
  | PKey.shiftL => hasKey cur PKey.shiftL || hasKey cur PKey.shiftR
  | PKey.shiftR => hasKey cur PKey.shiftL || hasKey cur PKey.shiftR
  | PKey.cmdL => hasKey cur PKey.cmdL || hasKey cur PKey.cmdR
  | PKey.cmdR => hasKey cur PKey.cmdL || hasKey cur PKey.cmdR
  | PKey.ch c => hasKey cur (PKey.ch c)

/-- is_hotkey_pressed: every key of the combination is held, with either-side
modifier equivalence. -/
def is_hotkey_pressed (combo cur : List PKey) : Bool :=
  combo.all (keyHeld cur)

/-- Listener state installed by register_hotkey, plus ghost counters of how
often the press and release callbacks fired. -/
structure HMState where
  currentKeys : List PKey
  isPressed : Bool
  pressCount : Nat
  releaseCount : Nat
  deriving Repr, DecidableEq

def initHM : HMState :=
  { currentKeys := [], isPressed := false, pressCount := 0, releaseCount := 0 }

/-- Raw keyboard events seen by the listener. -/
inductive KEv where
  | keyDown (k : PKey)
  | keyUp (k : PKey)
  deriving Repr, DecidableEq

/-- The on_key_press / on_key_release closures of register_hotkey: update the
live key set, then fire the callback exactly when the is_pressed flag flips. -/
def stepHM (combo : List PKey) (s : HMState) : KEv → HMState
  | KEv.keyDown k =>
      let cur := addKey s.currentKeys k
      if !s.isPressed && is_hotkey_pressed combo cur then
        { currentKeys := cur, isPressed := true, pressCount := s.pressCount + 1,
          releaseCount := s.releaseCount }
      else { s with currentKeys := cur }
  | KEv.keyUp k =>
      let cur := removeKey s.currentKeys k
      if s.isPressed && !is_hotkey_pressed combo cur then
        { currentKeys := cur, isPressed := false, pressCount := s.pressCount,
          releaseCount := s.releaseCount + 1 }
      else { s with currentKeys := cur }

def runHM (combo : List PKey) (evs : List KEv) : HMState :=
  evs.foldl (stepHM combo) initHM

/-- All configured keys held in a listener state. -/
def allHeld (combo : List PKey) (s : HMState) : Bool :=
  is_hotkey_pressed combo s.currentKeys

/-- Number of transitions of allHeld from false to true along an event
sequence. -/
def pressTransitions (combo : List PKey) (s : HMState) : List KEv → Nat
  | [] => 0
  | e :: es =>
      let s' := stepHM combo s e
      (if !allHeld combo s && allHeld combo s' then 1 else 0) + pressTransitions combo s' es

/-- Number of transitions of allHeld from true to false along an event
sequence. -/
def releaseTransitions (combo : List PKey) (s : HMState) : List KEv → Nat
  | [] => 0
  | e :: es =>
      let s' := stepHM combo s e
      (if allHeld combo s && !allHeld combo s' then 1 else 0) + releaseTransitions combo s' es

/-! ## DictionaryDialog (src/gui/dictionary_dialog.py)

The correction table being edited (the _data attribute) is modelled as an
association list from canonical word to its list of variations, in insertion
order; Python dict semantics make the keys duplicate-free. -/

abbrev DictTable := List (String × List String)

/-- Case folding used by all comparisons of the dialog (Python str.lower on
the ASCII strings involved). -/
def low (s : String) : String := String.mk (s.toList.map Char.toLower)

/-- add_word: rejects blank input and case-insensitive duplicates of an
existing canonical word; otherwise appends the word with no variations. -/
def add_word (d : DictTable) (w : String) : DictTable :=
  let w := strip w
  if w = "" then d
  else if d.any (fun e => low e.1 == low w) then d
  else d ++ [(w, [])]

/-- remove_word: deletes the canonical word together with its variations. -/
def remove_word (d : DictTable) (w : String) : DictTable :=
  d.filter (fun e => e.1 != w)

/-- The variations currently stored for a canonical word (Python
dict.get(word, [])). -/
def lookupVars (d : DictTable) (w : String) : List String :=
  match d.find? (fun e => e.1 == w) with
  | some e => e.2
  | none => []

/-- _try_add_variation (add_variation performs the same checks before the
same append): rejects a blank variation, a variation equal to the canonical
word itself, a duplicate of a variation of the same word and a variation
already used by another word — all case-insensitively; otherwise appends the
variation to the word's list. Returns the table and whether it was added. -/
def try_add_variation (d : DictTable) (w v : String) : DictTable × Bool :=
  let v := strip v
  if v = "" then (d, false)
  else if low v = low w then (d, false)
  else if (lookupVars d w).any (fun u => low u == low v) then (d, false)
  else if d.any (fun e => (e.1 != w) && e.2.any (fun u => low u == low v)) then (d, false)
  else (d.map (fun e => if e.1 = w then (e.1, e.2 ++ [v]) else e), true)

/-- remove_variation: removes the selected variation string from the word's
list (Python list.remove drops the first occurrence). -/
def remove_variation (d : DictTable) (w v : String) : DictTable :=
  d.map (fun e => if e.1 = w then (e.1, e.2.erase v) else e)

/-- The canonical words of the table are pairwise distinct (Python dict
keys). -/
def KeysNodup (d : DictTable) : Prop := (d.map Prod.fst).Nodup

/-- No lowered variant string occurs in the variation lists of two distinct
entries: a variant maps to at most one canonical word. -/
def VariantDisjoint (d : DictTable) : Prop :=
  d.Pairwise (fun a b => ∀ v ∈ a.2, ∀ u ∈ b.2, low v ≠ low u)

/-- The dictionary editor's invariant on the correction table. -/
def TableInv (d : DictTable) : Prop := KeysNodup d ∧ VariantDisjoint d

/-! ## KeyboardTyper (src/core/keyboard_typer.py)

The effect of a delivery attempt: its boolean result, how many times
paste_from_clipboard ran, and whether an exception escaped to the caller. The
environment flags say whether the character simulation and the clipboard
paste raise. -/

structure InjectResult where
  ok : Bool
  pasteCalls : Nat
  raised : Bool
  deriving Repr, DecidableEq

/-- paste_from_clipboard: catches every error and returns False; on success
returns True. It never raises to the caller. -/
def paste_from_clipboard (pasteFails : Bool) : InjectResult :=
  { ok := !pasteFails, pasteCalls := 1, raised := false }

/-- type_text: empty text returns False at once; clipboard mode delegates to
paste_from_clipboard; otherwise characters are simulated, and if that raises
the handler falls back to paste_from_clipboard once. Nothing propagates. -/
def type_text (text : String) (useClipboard typeFails pasteFails : Bool) : InjectResult :=
  if text = "" then { ok := false, pasteCalls := 0, raised := false }
  else if useClipboard then paste_from_clipboard pasteFails
  else if typeFails then paste_from_clipboard pasteFails
  else { ok := true, pasteCalls := 0, raised := false }

/-! ## The TextCorrector pass, modelled from the spec

No code of the repository applies the correction table to a transcription
result; the definitions below follow the words of spec section 4.3 and are
used only to state what the specified pass would deliver. -/

/-- The pattern is a case-insensitive leading segment of the text. -/
def starts_with_ci (pat s : List Char) : Bool :=
  match pat, s with
  | [], _ => true
  | _ :: _, [] => false
  | p :: ps, c :: cs => (Char.toLower c = Char.toLower p) && starts_with_ci ps cs

/-- The pattern occurs verbatim in the text. -/
def starts_with_chars (pat s : List Char) : Bool :=
  match pat, s with
  | [], _ => true
  | _ :: _, [] => false
  | p :: ps, c :: cs => (c = p) && starts_with_chars ps cs

def contains_chars (w : List Char) : List Char → Bool
  | [] => starts_with_chars w []
  | c :: cs => starts_with_chars w (c :: cs) || contains_chars w cs

/-- Replaces every case-insensitive occurrence of the pattern by the
replacement, scanning left to right. The fuel argument bounds the recursion
and is at least the length of the scanned text, so it never runs out. -/
def replace_ci_go (pat repl : List Char) : Nat → List Char → List Char
  | 0, s => s
  | _ + 1, [] => []
  | fuel + 1, c :: cs =>
      if starts_with_ci pat (c :: cs) then
        repl ++ replace_ci_go pat repl fuel (List.drop (pat.length - 1) cs)
      else c :: replace_ci_go pat repl fuel cs

def replace_ci (s pat repl : String) : String :=
  String.mk (replace_ci_go pat.toList repl.toList s.toList.length s.toList)

/-- Modelled from the spec: the TextCorrector substitution pass of section
4.3, absent from the source. For each canonical word with registered
variants, if the transcribed text contains the correct word itself, no
change; otherwise every configured variant occurring in the text
(case-insensitively) is replaced by the canonical form. -/
def applyCorrections (table : DictTable) (text : String) : String :=
  table.foldl
    (fun acc entry =>
      if contains_chars entry.1.toList acc.toList then acc
      else entry.2.foldl (fun acc2 v => replace_ci acc2 v entry.1) acc)
    text

/-! ## C10: recorder lifecycle operations are no-ops outside their precondition -/

/-- C10: start_recording while already recording returns immediately without
restarting the stream or clearing buffered audio, and stop_recording while
not recording returns none and leaves the recorder state unchanged. -/
theorem recorder_lifecycle_noop :
    (∀ (r : RecorderState) (deviceOk : Bool), r.recording = true →
        start_recording r deviceOk = (r, false)) ∧
    (∀ r : RecorderState, r.recording = false →
        stop_recording r = (none, r)) := by
  constructor
  · intro r deviceOk h
    simp [start_recording, h]
  · intro r h
    simp [stop_recording, h]

/-- Witness for C10 at a concrete recorder state. -/
theorem recorder_lifecycle_noop_witness :
    start_recording { recording := true, queue := [[7]], stream := true } false
      = ({ recording := true, queue := [[7]], stream := true }, false) ∧
    stop_recording { recording := false, queue := [], stream := false }
      = (none, { recording := false, queue := [], stream := false }) :=
  ⟨recorder_lifecycle_noop.1 _ false rfl, recorder_lifecycle_noop.2 _ rfl⟩

/-! ## C8: typing errors fall back to the clipboard exactly once -/

/-- C8: for every non-empty text, when character-paced key simulation raises
during delivery, type_text runs the clipboard fallback exactly once; if the
fallback also fails the call returns failure and no exception propagates. -/
theorem typing_error_falls_back_once (text : String) (pasteFails : Bool)
    (h : text ≠ "") :
    (type_text text false true pasteFails).pasteCalls = 1 ∧
    (type_text text false true pasteFails).raised = false ∧
    (type_text text false true pasteFails).ok = !pasteFails := by
  simp [type_text, paste_from_clipboard, h]

/-- Witness for C8 at a concrete text with a failing fallback. -/
theorem typing_error_falls_back_once_witness :
    (type_text "hello" false true true).pasteCalls = 1 ∧
    (type_text "hello" false true true).raised = false ∧
    (type_text "hello" false true true).ok = !true :=
  typing_error_falls_back_once "hello" true (by decide)

/-! ## C5: empty buffer on release goes straight back to idle -/

/-- C5: when the hotkey is released and the captured buffer is empty (the
recorder was not recording, or no samples were queued), the session goes
directly back to idle: no worker is spawned, the thread slot is untouched and
no error or busy notification is raised. -/
theorem empty_buffer_returns_to_idle (s : AppState)
    (h : s.recorder.recording = false ∨ s.recorder.queue.flatten = []) :
    (step s Ev.release).tray = TrayState.idle ∧
    (step s Ev.release).spawned = s.spawned ∧
    (step s Ev.release).thread = s.thread ∧
    (step s Ev.release).errors = s.errors ∧
    (step s Ev.release).busyCount = s.busyCount := by
  rcases h with h | h
  · simp [step, on_hotkey_release, stop_recording, h]
  · cases hrec : s.recorder.recording with
    | false => simp [step, on_hotkey_release, stop_recording, hrec]
    | true =>
        by_cases hqe : s.recorder.queue = []
        · simp [step, on_hotkey_release, stop_recording, hrec, hqe]
        · simp [step, on_hotkey_release, stop_recording, hrec, hqe, h]

/-- Witness for C5: release immediately after press, no chunk captured. -/
theorem empty_buffer_returns_to_idle_witness :
    (step (runApp [Ev.press true]) Ev.release).tray = TrayState.idle ∧
    (step (runApp [Ev.press true]) Ev.release).spawned = (runApp [Ev.press true]).spawned ∧
    (step (runApp [Ev.press true]) Ev.release).thread = (runApp [Ev.press true]).thread ∧
    (step (runApp [Ev.press true]) Ev.release).errors = (runApp [Ev.press true]).errors ∧
    (step (runApp [Ev.press true]) Ev.release).busyCount = (runApp [Ev.press true]).busyCount :=
  empty_buffer_returns_to_idle _ (Or.inr rfl)

/-! ## C1: what a press during Transcribing actually does -/

/-- C1 counterexample: after press, chunk, release the session is
Transcribing with the worker thread running; the next hotkey press starts a
new recording (the recorder's recording flag becomes true) and raises no busy
notification, contradicting the claim that such a press never starts a new
recording and is rejected with a busy notice. -/
theorem press_while_transcribing_starts_recording :
    (runApp [Ev.press true, Ev.chunk [1], Ev.release]).tray = TrayState.transcribing ∧
    (runApp [Ev.press true, Ev.chunk [1], Ev.release]).thread = some true ∧
    (runApp [Ev.press true, Ev.chunk [1], Ev.release, Ev.press true]).recorder.recording = true ∧
    (runApp [Ev.press true, Ev.chunk [1], Ev.release, Ev.press true]).busyCount = 0 :=
  ⟨rfl, rfl, rfl, rfl⟩

/-- C1 amended: the press handler has no busy check, so a press while
Transcribing starts the recorder; the busy rejection happens at the following
hotkey release: when the worker thread is still running, start_transcription
starts no new worker, raises exactly one busy notification and keeps the
running thread. -/
theorem busy_rejection_at_release (s : AppState) (ht : s.thread = some true)
    (hr : s.recorder.recording = true) (hq : s.recorder.queue.flatten ≠ []) :
    (step s Ev.release).busyCount = s.busyCount + 1 ∧
    (step s Ev.release).spawned = s.spawned ∧
    (step s Ev.release).thread = some true ∧
    (step s Ev.release).workerLog = s.workerLog := by
  have hqe : s.recorder.queue ≠ [] := by
    intro hnil
    exact hq (by simp [hnil])
  simp [step, on_hotkey_release, stop_recording, hr, hqe, hq, start_transcription, ht]

/-- Witness for the amended C1: a second press-and-hold while the first
transcription is still running, then release. -/
theorem busy_rejection_at_release_witness :
    (step (runApp [Ev.press true, Ev.chunk [1], Ev.release, Ev.press true, Ev.chunk [2]])
        Ev.release).busyCount
      = (runApp [Ev.press true, Ev.chunk [1], Ev.release, Ev.press true, Ev.chunk [2]]).busyCount + 1 ∧
    (step (runApp [Ev.press true, Ev.chunk [1], Ev.release, Ev.press true, Ev.chunk [2]])
        Ev.release).spawned
      = (runApp [Ev.press true, Ev.chunk [1], Ev.release, Ev.press true, Ev.chunk [2]]).spawned ∧
    (step (runApp [Ev.press true, Ev.chunk [1], Ev.release, Ev.press true, Ev.chunk [2]])
        Ev.release).thread = some true ∧
    (step (runApp [Ev.press true, Ev.chunk [1], Ev.release, Ev.press true, Ev.chunk [2]])
        Ev.release).workerLog
      = (runApp [Ev.press true, Ev.chunk [1], Ev.release, Ev.press true, Ev.chunk [2]]).workerLog :=
  busy_rejection_at_release _ rfl rfl (by decide)

/-! ## C2: the correction pass is missing from the pipeline -/

/-- C2: evaluating the pipeline at the failing input: the transcription
result iobare with correction table mapping iObeya to the variant iobare is
handed to the injector unchanged as iobare, while the specified TextCorrector
pass would deliver iObeya. -/
theorem correction_pass_missing :
    (runApp [Ev.press true, Ev.chunk [3], Ev.release, Ev.finishSig "iobare"]).injected
      = ["iobare"] ∧
    applyCorrections [("iObeya", ["iobare"])] "iobare" = "iObeya" ∧
    ("iobare" : String) ≠ "iObeya" :=
  ⟨rfl, by decide, by decide⟩

/-! ## C9: which recognition failures take the error path -/

/-- C9 counterexample: an inference failure with a loaded model makes
transcribe swallow the exception and return the empty string, so the worker
emits the finished signal, not the error signal; delivering that empty
completion to the controller reports no error to the user (the session still
ends idle). The error path is therefore not taken for every recognition
failure. -/
theorem inference_failure_not_reported :
    worker_run { modelLoaded := true } [5] false true "ignored"
      = WorkerSignal.finished "" ∧
    (runApp [Ev.press true, Ev.chunk [5], Ev.release, Ev.finishSig ""]).errors = [] ∧
    (runApp [Ev.press true, Ev.chunk [5], Ev.release, Ev.finishSig ""]).tray
      = TrayState.idle :=
  ⟨rfl, rfl, rfl⟩

/-- C9 amended: the worker takes the error path exactly when loading the
model raises (an inference failure is caught inside transcribe and surfaces
as an empty finished signal); on the error signal the controller reports the
error and resets the tray to idle, while an empty finished signal is absorbed
with no user-visible error and the tray reset to idle. -/
theorem recognition_error_path (t : TranscriberState) (data : List Nat)
    (loadFails inferFails : Bool) (inferText msg : String) (s : AppState)
    (hs : s.thread ≠ none) :
    (worker_run t data loadFails inferFails inferText).isError
      = (!t.modelLoaded && loadFails) ∧
    (step s (Ev.errorSig msg)).errors = s.errors ++ ["Transcription failed: " ++ msg] ∧
    (step s (Ev.errorSig msg)).tray = TrayState.idle ∧
    (step s (Ev.finishSig "")).errors = s.errors ∧
    (step s (Ev.finishSig "")).injected = s.injected ∧
    (step s (Ev.finishSig "")).tray = TrayState.idle := by
  refine ⟨?_, ?_, ?_, ?_, ?_, ?_⟩
  · cases hml : t.modelLoaded <;> cases hlf : loadFails <;>
      by_cases hd : data = [] <;> cases hinf : inferFails <;>
        simp [worker_run, transcribe, load_model, WorkerSignal.isError, hml, hlf, hd, hinf]
  all_goals
    simp [step, hs, on_transcription_error, on_transcription_complete,
      quit_transcription_thread]

/-- Witness for the amended C9: a model-load failure on the first use. -/
theorem recognition_error_path_witness :
    (worker_run { modelLoaded := false } [5] true false "ignored").isError
      = (!({ modelLoaded := false } : TranscriberState).modelLoaded && true) ∧
    (step (runApp [Ev.press true, Ev.chunk [5], Ev.release]) (Ev.errorSig "boom")).errors
      = (runApp [Ev.press true, Ev.chunk [5], Ev.release]).errors
          ++ ["Transcription failed: " ++ "boom"] ∧
    (step (runApp [Ev.press true, Ev.chunk [5], Ev.release]) (Ev.errorSig "boom")).tray
      = TrayState.idle ∧
    (step (runApp [Ev.press true, Ev.chunk [5], Ev.release]) (Ev.finishSig "")).errors
      = (runApp [Ev.press true, Ev.chunk [5], Ev.release]).errors ∧
    (step (runApp [Ev.press true, Ev.chunk [5], Ev.release]) (Ev.finishSig "")).injected
      = (runApp [Ev.press true, Ev.chunk [5], Ev.release]).injected ∧
    (step (runApp [Ev.press true, Ev.chunk [5], Ev.release]) (Ev.finishSig "")).tray
      = TrayState.idle :=
  recognition_error_path _ [5] true false "ignored" "boom" _ (by decide)

/-! ## C4: the watchdog frees a stuck worker slot -/

/-- C4: a release with captured audio spawns the worker and schedules the
watchdog exactly watchdogDelayMs after the worker start; if the worker never
signals, firing the watchdog at that deadline clears the thread and worker
references, after which a press captures audio again and the next release
successfully spawns a new worker. -/
theorem watchdog_frees_stuck_worker (s : AppState) (data : List Nat)
    (ht : s.thread = none) (hr : s.recorder.recording = true)
    (hq : s.recorder.queue.flatten ≠ []) (hw : s.watchdogDue = [])
    (hd : data ≠ []) :
    (step s Ev.release).thread = some true ∧
    (step s Ev.release).watchdogDue = [s.clock + watchdogDelayMs] ∧
    (step (step (step s Ev.release) (Ev.elapse watchdogDelayMs)) Ev.watchdog).clock
      = s.clock + watchdogDelayMs ∧
    (step (step (step s Ev.release) (Ev.elapse watchdogDelayMs)) Ev.watchdog).thread
      = none ∧
    (step (step (step s Ev.release) (Ev.elapse watchdogDelayMs)) Ev.watchdog).worker
      = false ∧
    (step (step (step (step s Ev.release) (Ev.elapse watchdogDelayMs)) Ev.watchdog)
        (Ev.press true)).recorder.recording = true ∧
    (step (step (step (step (step (step s Ev.release) (Ev.elapse watchdogDelayMs))
        Ev.watchdog) (Ev.press true)) (Ev.chunk data)) Ev.release).thread = some true ∧
    (step (step (step (step (step (step s Ev.release) (Ev.elapse watchdogDelayMs))
        Ev.watchdog) (Ev.press true)) (Ev.chunk data)) Ev.release).spawned
      = (step s Ev.release).spawned + 1 := by
  have hqe : s.recorder.queue ≠ [] := by
    intro hnil
    exact hq (by simp [hnil])
  simp [step, on_hotkey_release, stop_recording, hr, hqe, hq, start_transcription, ht, hw,
    force_cleanup_if_stuck, cleanup_transcription_thread, on_hotkey_press, start_recording,
    recorder_callback, hd]

/-- Witness for C4: a worker started from a one-chunk recording that never
signals, cleaned up by the watchdog, then a fresh press-record-release. -/
theorem watchdog_frees_stuck_worker_witness :
    (step (runApp [Ev.press true, Ev.chunk [9]]) Ev.release).thread = some true ∧
    (step (runApp [Ev.press true, Ev.chunk [9]]) Ev.release).watchdogDue
      = [(runApp [Ev.press true, Ev.chunk [9]]).clock + watchdogDelayMs] ∧
    (step (step (step (runApp [Ev.press true, Ev.chunk [9]]) Ev.release)
        (Ev.elapse watchdogDelayMs)) Ev.watchdog).clock
      = (runApp [Ev.press true, Ev.chunk [9]]).clock + watchdogDelayMs ∧
    (step (step (step (runApp [Ev.press true, Ev.chunk [9]]) Ev.release)
        (Ev.elapse watchdogDelayMs)) Ev.watchdog).thread = none ∧
    (step (step (step (runApp [Ev.press true, Ev.chunk [9]]) Ev.release)
        (Ev.elapse watchdogDelayMs)) Ev.watchdog).worker = false ∧
    (step (step (step (step (runApp [Ev.press true, Ev.chunk [9]]) Ev.release)
        (Ev.elapse watchdogDelayMs)) Ev.watchdog) (Ev.press true)).recorder.recording
      = true ∧
    (step (step (step (step (step (step (runApp [Ev.press true, Ev.chunk [9]]) Ev.release)
        (Ev.elapse watchdogDelayMs)) Ev.watchdog) (Ev.press true)) (Ev.chunk [4]))
        Ev.release).thread = some true ∧
    (step (step (step (step (step (step (runApp [Ev.press true, Ev.chunk [9]]) Ev.release)
        (Ev.elapse watchdogDelayMs)) Ev.watchdog) (Ev.press true)) (Ev.chunk [4]))
        Ev.release).spawned
      = (step (runApp [Ev.press true, Ev.chunk [9]]) Ev.release).spawned + 1 :=
  watchdog_frees_stuck_worker _ [4] rfl rfl (by decide) rfl (by decide)

/-! ## C3: single-flight — at most one worker thread alive at a time -/

theorem setLastFalse_append (l : List Bool) (b : Bool) :
    setLastFalse (l ++ [b]) = l ++ [false] := by
  induction l with
  | nil => rfl
  | cons x xs ih =>
      cases xs with
      | nil => rfl
      | cons y ys => simpa [setLastFalse] using ih

theorem count_setLastFalse_le (l : List Bool) :
    (setLastFalse l).count true ≤ l.count true := by
  induction l with
  | nil => simp [setLastFalse]
  | cons x xs ih =>
      cases xs with
      | nil => cases x <;> simp [setLastFalse]
      | cons y ys =>
          have h := ih
          simp only [List.count_cons] at h
          cases x <;>
            simp only [setLastFalse, List.count_cons] <;>
            omega

theorem threadInv_of_eq {s s' : AppState} (h : ThreadInv s)
    (ht : s'.thread = s.thread) (hl : s'.workerLog = s.workerLog) : ThreadInv s' := by
  unfold ThreadInv at h ⊢
  rw [ht, hl]
  exact h

theorem threadInv_init : ThreadInv initApp := by
  constructor
  · intro h
    simp [initApp] at h
  · intro _
    simp [initApp]

theorem threadInv_start_transcription (s : AppState) (h : ThreadInv s) :
    ThreadInv (start_transcription s) := by
  by_cases ht : s.thread = some true
  · exact threadInv_of_eq h (by simp [start_transcription, ht])
      (by simp [start_transcription, ht])
  · have hc := h.2 ht
    constructor
    · intro _
      exact ⟨s.workerLog, by simp [start_transcription, ht], hc⟩
    · intro hcon
      simp [start_transcription, ht] at hcon

theorem threadInv_quit (s : AppState) (h : ThreadInv s) :
    ThreadInv (quit_transcription_thread s) := by
  by_cases ht : s.thread = none
  · exact threadInv_of_eq h (by simp [quit_transcription_thread, ht])
      (by simp [quit_transcription_thread, ht])
  · constructor
    · intro hcon
      simp [quit_transcription_thread, ht] at hcon
    · intro _
      by_cases htt : s.thread = some true
      · obtain ⟨pre, hlog, hcnt⟩ := h.1 htt
        simp [quit_transcription_thread, ht, hlog, setLastFalse_append,
          List.count_append, hcnt]
      · have hc := h.2 htt
        have hle := count_setLastFalse_le s.workerLog
        simp [quit_transcription_thread, ht]
        omega

theorem threadInv_step_no_timer (s : AppState) (e : Ev)
    (he1 : e ≠ Ev.watchdog) (he2 : e ≠ Ev.cleanupTimer) (h : ThreadInv s) :
    ThreadInv (step s e) := by
  cases e with
  | press deviceOk =>
      refine threadInv_of_eq h ?_ ?_ <;>
        by_cases hb : (start_recording s.recorder deviceOk).2 <;>
          simp [step, on_hotkey_press, hb]
  | chunk data => exact threadInv_of_eq h rfl rfl
  | release =>
      rcases hst : (stop_recording s.recorder).1 with _ | samples
      · exact threadInv_of_eq h (by simp [step, on_hotkey_release, hst])
          (by simp [step, on_hotkey_release, hst])
      · by_cases hse : samples = []
        · exact threadInv_of_eq h (by simp [step, on_hotkey_release, hst, hse])
            (by simp [step, on_hotkey_release, hst, hse])
        · have hrel : step s Ev.release
              = start_transcription
                  { s with recorder := (stop_recording s.recorder).2,
                           tray := TrayState.transcribing } := by
            simp [step, on_hotkey_release, hst, hse]
          rw [hrel]
          exact threadInv_start_transcription _ (threadInv_of_eq h rfl rfl)
  | finishSig text =>
      by_cases ht : s.thread = none
      · have hss : step s (Ev.finishSig text) = s := by simp [step, ht]
        rw [hss]
        exact h
      · have hss : step s (Ev.finishSig text)
            = quit_transcription_thread (on_transcription_complete s text) := by
          simp [step, ht]
        rw [hss]
        refine threadInv_quit _ (threadInv_of_eq h ?_ ?_) <;>
          by_cases hte : text = "" <;> simp [on_transcription_complete, hte]
  | errorSig msg =>
      by_cases ht : s.thread = none
      · have hss : step s (Ev.errorSig msg) = s := by simp [step, ht]
        rw [hss]
        exact h
      · have hss : step s (Ev.errorSig msg)
            = quit_transcription_thread (on_transcription_error s msg) := by
          simp [step, ht]
        rw [hss]
        exact threadInv_quit _ (threadInv_of_eq h rfl rfl)
  | cleanupTimer => exact absurd rfl he2
  | watchdog => exact absurd rfl he1
  | elapse d => exact threadInv_of_eq h rfl rfl

theorem threadInv_run_no_timer (evs : List Ev)
    (hevs : ∀ e ∈ evs, e ≠ Ev.watchdog ∧ e ≠ Ev.cleanupTimer) :
    ThreadInv (runApp evs) := by
  suffices hgen : ∀ s, ThreadInv s → ThreadInv (evs.foldl step s) from
    hgen initApp threadInv_init
  induction evs with
  | nil => exact fun s hs => hs
  | cons e es ih =>
      intro s hs
      have he := hevs e (List.mem_cons_self e es)
      exact ih (fun e1 he1 => hevs e1 (List.mem_cons_of_mem e he1)) (step s e)
        (threadInv_step_no_timer s e he.1 he.2 hs)

theorem threadInv_count_le_one (s : AppState) (h : ThreadInv s) :
    s.workerLog.count true ≤ 1 := by
  by_cases ht : s.thread = some true
  · obtain ⟨pre, hlog, hcnt⟩ := h.1 ht
    simp [hlog, List.count_append, hcnt]
  · simp [h.2 ht]

/-- C3 counterexample: a worker that never signals is forcibly cleaned up by
the watchdog, but quit and the bounded waits cannot stop a thread still
blocked inside transcribe: the references are cleared while the worker stays
alive, and the next press-and-release spawns a second worker — two of the
spawned worker threads are then running at the same time. -/
theorem watchdog_restart_overlaps_workers :
    (runApp [Ev.press true, Ev.chunk [1], Ev.release, Ev.elapse watchdogDelayMs,
        Ev.watchdog, Ev.press true, Ev.chunk [2], Ev.release]).workerLog.count true
      = 2 ∧
    (runApp [Ev.press true, Ev.chunk [1], Ev.release, Ev.elapse watchdogDelayMs,
        Ev.watchdog, Ev.press true, Ev.chunk [2], Ev.release]).spawned = 2 :=
  ⟨rfl, rfl⟩

/-- C3 amended: starting a new transcription while the referenced worker
thread is still running refuses to start a second pipeline (spawn counter,
worker log and running thread unchanged); consequently, over every event
sequence without a forced or deferred cleanup firing — in particular whenever
every worker signals completion or error — at most one spawned worker thread
is alive at a time. The watchdog path is the exception: forced cleanup cannot
stop a hung worker and abandons it alive, so a subsequent release spawns a
second live worker thread. -/
theorem single_flight_unless_forced_cleanup :
    (∀ evs : List Ev, (∀ e ∈ evs, e ≠ Ev.watchdog ∧ e ≠ Ev.cleanupTimer) →
        (runApp evs).workerLog.count true ≤ 1) ∧
    (∀ s : AppState, s.thread = some true →
        (step s Ev.release).spawned = s.spawned ∧
        (step s Ev.release).workerLog = s.workerLog ∧
        (step s Ev.release).thread = some true) := by
  constructor
  · intro evs hevs
    exact threadInv_count_le_one _ (threadInv_run_no_timer evs hevs)
  · intro s ht
    rcases hst : (stop_recording s.recorder).1 with _ | samples
    · simp [step, on_hotkey_release, hst, ht]
    · by_cases hse : samples = []
      · simp [step, on_hotkey_release, hst, hse, ht]
      · simp [step, on_hotkey_release, hst, hse, start_transcription, ht]

/-- Witness for the amended C3: a trace whose worker signals completion
before the next session, and a release received while a worker still runs. -/
theorem single_flight_unless_forced_cleanup_witness :
    (runApp [Ev.press true, Ev.chunk [1], Ev.release, Ev.finishSig "hi",
        Ev.press true, Ev.chunk [2], Ev.release]).workerLog.count true ≤ 1 ∧
    (step (runApp [Ev.press true, Ev.chunk [1], Ev.release]) Ev.release).spawned
      = (runApp [Ev.press true, Ev.chunk [1], Ev.release]).spawned :=
  ⟨single_flight_unless_forced_cleanup.1 _ (by decide),
   (single_flight_unless_forced_cleanup.2 _ rfl).1⟩

/-! ## C6: the hotkey watcher fires once per combination transition -/

theorem hasKey_append (a b : List PKey) (x : PKey) :
    hasKey (a ++ b) x = (hasKey a x || hasKey b x) := by
  induction a with
  | nil => simp [hasKey]
  | cons c cs ih =>
      by_cases hcx : c = x <;> simp [hasKey, hcx, ih]

theorem hasKey_addKey {cur : List PKey} {k x : PKey} (h : hasKey cur x = true) :
    hasKey (addKey cur k) x = true := by
  unfold addKey
  by_cases hc : hasKey cur k
  · simp [hc, h]
  · simp [hc, hasKey_append, h]

theorem hasKey_of_removeKey {k x : PKey} : ∀ {cur : List PKey},
    hasKey (removeKey cur k) x = true → hasKey cur x = true := by
  intro cur
  induction cur with
  | nil => intro h; simpa [removeKey] using h
  | cons c cs ih =>
      intro h
      by_cases hck : c = k
      · rw [removeKey, if_pos hck] at h
        by_cases hcx : c = x <;> simp [hasKey, hcx, h]
      · rw [removeKey, if_neg hck] at h
        by_cases hcx : c = x
        · simp [hasKey, hcx]
        · simp [hasKey, hcx] at h ⊢
          exact ih h

theorem keyHeld_mono {cur cur' : List PKey}
    (hmem : ∀ x, hasKey cur x = true → hasKey cur' x = true) {k : PKey}
    (h : keyHeld cur k = true) : keyHeld cur' k = true := by
  cases k <;>
    simp only [keyHeld, Bool.or_eq_true] at h ⊢ <;>
    first
      | exact h.elim (fun h1 => Or.inl (hmem _ h1)) (fun h1 => Or.inr (hmem _ h1))
      | exact hmem _ h

theorem is_hotkey_pressed_mono {combo cur cur' : List PKey}
    (hmem : ∀ x, hasKey cur x = true → hasKey cur' x = true)
    (h : is_hotkey_pressed combo cur = true) : is_hotkey_pressed combo cur' = true := by
  simp only [is_hotkey_pressed, List.all_eq_true] at h ⊢
  exact fun k hk => keyHeld_mono hmem (h k hk)

theorem keyHeld_nil (k : PKey) : keyHeld [] k = false := by
  cases k <;> rfl

theorem stepHM_isPressed (combo : List PKey) (s : HMState) (e : KEv)
    (h : s.isPressed = allHeld combo s) :
    (stepHM combo s e).isPressed = allHeld combo (stepHM combo s e) := by
  cases e with
  | keyDown k =>
      cases hp : s.isPressed with
      | true =>
          have hall : is_hotkey_pressed combo s.currentKeys = true := by
            rw [hp] at h; exact h.symm
          have hall' : is_hotkey_pressed combo (addKey s.currentKeys k) = true :=
            is_hotkey_pressed_mono (fun x hx => hasKey_addKey hx) hall
          simp [stepHM, hp, hall', allHeld]
      | false =>
          cases hall' : is_hotkey_pressed combo (addKey s.currentKeys k) with
          | true => simp [stepHM, hp, hall', allHeld]
          | false => simp [stepHM, hp, hall', allHeld]
  | keyUp k =>
      cases hp : s.isPressed with
      | true =>
          cases hall' : is_hotkey_pressed combo (removeKey s.currentKeys k) with
          | true => simp [stepHM, hp, hall', allHeld]
          | false => simp [stepHM, hp, hall', allHeld]
      | false =>
          cases hall' : is_hotkey_pressed combo (removeKey s.currentKeys k) with
          | true =>
              exfalso
              have hcur := is_hotkey_pressed_mono
                (fun x hx => hasKey_of_removeKey hx) hall'
              rw [hp] at h
              unfold allHeld at h
              rw [← h] at hcur
              simp at hcur
          | false => simp [stepHM, hp, hall', allHeld]

theorem stepHM_pressCount (combo : List PKey) (s : HMState) (e : KEv)
    (h : s.isPressed = allHeld combo s) :
    (stepHM combo s e).pressCount
      = s.pressCount
        + (if !allHeld combo s && allHeld combo (stepHM combo s e) then 1 else 0) := by
  cases e with
  | keyDown k =>
      cases hp : s.isPressed with
      | true =>
          have hall : is_hotkey_pressed combo s.currentKeys = true := by
            rw [hp] at h; exact h.symm
          have hall' : is_hotkey_pressed combo (addKey s.currentKeys k) = true :=
            is_hotkey_pressed_mono (fun x hx => hasKey_addKey hx) hall
          simp [stepHM, hp, hall', allHeld, hall]
      | false =>
          have hall : is_hotkey_pressed combo s.currentKeys = false := by
            rw [hp] at h; exact h.symm
          cases hall' : is_hotkey_pressed combo (addKey s.currentKeys k) with
          | true => simp [stepHM, hp, hall', allHeld, hall]
          | false => simp [stepHM, hp, hall', allHeld, hall]
  | keyUp k =>
      cases hall : is_hotkey_pressed combo s.currentKeys with
      | true =>
          have hp : s.isPressed = true := by rw [h]; exact hall
          cases hall' : is_hotkey_pressed combo (removeKey s.currentKeys k) with
          | true => simp [stepHM, hp, hall', allHeld, hall]
          | false => simp [stepHM, hp, hall', allHeld, hall]
      | false =>
          have hp : s.isPressed = false := by rw [h]; exact hall
          cases hall' : is_hotkey_pressed combo (removeKey s.currentKeys k) with
          | true =>
              exfalso
              have hcur := is_hotkey_pressed_mono
                (fun x hx => hasKey_of_removeKey hx) hall'
              rw [hcur] at hall
              simp at hall
          | false => simp [stepHM, hp, hall', allHeld, hall]

theorem stepHM_releaseCount (combo : List PKey) (s : HMState) (e : KEv)
    (h : s.isPressed = allHeld combo s) :
    (stepHM combo s e).releaseCount
      = s.releaseCount
        + (if allHeld combo s && !allHeld combo (stepHM combo s e) then 1 else 0) := by
  cases e with
  | keyDown k =>
      cases hall : is_hotkey_pressed combo s.currentKeys with
      | true =>
          have hp : s.isPressed = true := by rw [h]; exact hall
          have hall' : is_hotkey_pressed combo (addKey s.currentKeys k) = true :=
            is_hotkey_pressed_mono (fun x hx => hasKey_addKey hx) hall
          simp [stepHM, hp, hall', allHeld, hall]
      | false =>
          have hp : s.isPressed = false := by rw [h]; exact hall
          cases hall' : is_hotkey_pressed combo (addKey s.currentKeys k) with
          | true => simp [stepHM, hp, hall', allHeld, hall]
          | false => simp [stepHM, hp, hall', allHeld, hall]
  | keyUp k =>
      cases hall : is_hotkey_pressed combo s.currentKeys with
      | true =>
          have hp : s.isPressed = true := by rw [h]; exact hall
          cases hall' : is_hotkey_pressed combo (removeKey s.currentKeys k) with
          | true => simp [stepHM, hp, hall', allHeld, hall]
          | false => simp [stepHM, hp, hall', allHeld, hall]
      | false =>
          have hp : s.isPressed = false := by rw [h]; exact hall
          cases hall' : is_hotkey_pressed combo (removeKey s.currentKeys k) with
          | true =>
              exfalso
              have hcur := is_hotkey_pressed_mono
                (fun x hx => hasKey_of_removeKey hx) hall'
              rw [hcur] at hall
              simp at hall
          | false => simp [stepHM, hp, hall', allHeld, hall]

theorem hm_counts (combo : List PKey) :
    ∀ (evs : List KEv) (s : HMState), s.isPressed = allHeld combo s →
      (evs.foldl (stepHM combo) s).pressCount
          = s.pressCount + pressTransitions combo s evs ∧
      (evs.foldl (stepHM combo) s).releaseCount
          = s.releaseCount + releaseTransitions combo s evs := by
  intro evs
  induction evs with
  | nil =>
      intro s h
      simp [pressTransitions, releaseTransitions]
  | cons e es ih =>
      intro s h
      have hinv := stepHM_isPressed combo s e h
      obtain ⟨ihp, ihr⟩ := ih (stepHM combo s e) hinv
      have hpc := stepHM_pressCount combo s e h
      have hrc := stepHM_releaseCount combo s e h
      constructor
      · rw [List.foldl_cons, ihp, pressTransitions]
        omega
      · rw [List.foldl_cons, ihr, releaseTransitions]
        omega

/-- C6: for every key event sequence, register_hotkey's listener fires the
press callback exactly once per transition of the configured combination from
not-all-held to all-held, and the release callback exactly once per
transition back; repeated key presses with no intervening release of the
combination fire the press callback only once. -/
theorem hotkey_fires_once_per_transition (combo : List PKey) (hne : combo ≠ [])
    (evs : List KEv) :
    (runHM combo evs).pressCount = pressTransitions combo initHM evs ∧
    (runHM combo evs).releaseCount = releaseTransitions combo initHM evs := by
  have hinit : (initHM).isPressed = allHeld combo initHM := by
    cases combo with
    | nil => exact absurd rfl hne
    | cons k ks => simp [initHM, allHeld, is_hotkey_pressed, keyHeld_nil]
  obtain ⟨hp, hr⟩ := hm_counts combo evs initHM hinit
  constructor
  · rw [runHM, hp]
    simp [initHM]
  · rw [runHM, hr]
    simp [initHM]

/-- Witness for C6: the combination ctrl+alt+r held with the r key
auto-repeating three times fires the press callback once, and the single
release of r fires the release callback once. -/
theorem hotkey_fires_once_per_transition_witness :
    ((runHM (parse_hotkey_string "ctrl+alt+r")
        [KEv.keyDown PKey.ctrlL, KEv.keyDown PKey.altL, KEv.keyDown (PKey.ch "r"),
         KEv.keyDown (PKey.ch "r"), KEv.keyDown (PKey.ch "r"),
         KEv.keyUp (PKey.ch "r")]).pressCount
      = pressTransitions (parse_hotkey_string "ctrl+alt+r") initHM
          [KEv.keyDown PKey.ctrlL, KEv.keyDown PKey.altL, KEv.keyDown (PKey.ch "r"),
           KEv.keyDown (PKey.ch "r"), KEv.keyDown (PKey.ch "r"),
           KEv.keyUp (PKey.ch "r")]) ∧
    ((runHM (parse_hotkey_string "ctrl+alt+r")
        [KEv.keyDown PKey.ctrlL, KEv.keyDown PKey.altL, KEv.keyDown (PKey.ch "r"),
         KEv.keyDown (PKey.ch "r"), KEv.keyDown (PKey.ch "r"),
         KEv.keyUp (PKey.ch "r")]).releaseCount
      = releaseTransitions (parse_hotkey_string "ctrl+alt+r") initHM
          [KEv.keyDown PKey.ctrlL, KEv.keyDown PKey.altL, KEv.keyDown (PKey.ch "r"),
           KEv.keyDown (PKey.ch "r"), KEv.keyDown (PKey.ch "r"),
           KEv.keyUp (PKey.ch "r")]) :=
  hotkey_fires_once_per_transition _ (by decide) _

/-! ## C7: dictionary edits keep variants unambiguous -/

theorem map_fst_map {g : String × List String → String × List String}
    (hg : ∀ e, (g e).1 = e.1) (d : DictTable) :
    (d.map g).map Prod.fst = d.map Prod.fst := by
  induction d with
  | nil => rfl
  | cons e es ih => simp [hg, ih]

theorem tableInv_add_word (d : DictTable) (w : String) (h : TableInv d) :
    TableInv (add_word d w) := by
  obtain ⟨hk, hp⟩ := h
  by_cases h1 : strip w = ""
  · have hid : add_word d w = d := by simp [add_word, h1]
    rw [hid]; exact ⟨hk, hp⟩
  · by_cases h2 : d.any (fun e => low e.1 == low (strip w)) = true
    · have hid : add_word d w = d := by simp [add_word, h1, h2]
      rw [hid]; exact ⟨hk, hp⟩
    · have hres : add_word d w = d ++ [(strip w, [])] := by
        simp [add_word, h1, h2]
      rw [hres]
      have hnew : ∀ e ∈ d, ¬ low e.1 = low (strip w) := by
        intro e he hc
        apply h2
        rw [List.any_eq_true]
        exact ⟨e, he, beq_iff_eq.mpr hc⟩
      constructor
      · unfold KeysNodup
        rw [List.map_append]
        refine List.Nodup.append hk (List.nodup_singleton _) ?_
        intro x hx hx'
        simp only [List.map_cons, List.map_nil, List.mem_singleton] at hx'
        subst hx'
        obtain ⟨e, he, hfst⟩ := List.mem_map.mp hx
        exact hnew e he (by rw [hfst])
      · unfold VariantDisjoint
        rw [List.pairwise_append]
        refine ⟨hp, List.pairwise_singleton _ _, ?_⟩
        intro a _ b hb
        simp only [List.mem_singleton] at hb
        subst hb
        intro x _ u hu
        simp at hu

theorem tableInv_remove_word (d : DictTable) (w : String) (h : TableInv d) :
    TableInv (remove_word d w) := by
  obtain ⟨hk, hp⟩ := h
  constructor
  · exact ((List.filter_sublist d).map Prod.fst).nodup hk
  · exact hp.sublist (List.filter_sublist d)

theorem tableInv_remove_variation (d : DictTable) (w v : String) (h : TableInv d) :
    TableInv (remove_variation d w v) := by
  obtain ⟨hk, hp⟩ := h
  constructor
  · unfold KeysNodup remove_variation
    rw [map_fst_map (fun e => by by_cases hew : e.1 = w <;> simp [hew])]
    exact hk
  · unfold VariantDisjoint remove_variation
    rw [List.pairwise_map]
    refine hp.imp ?_
    intro a b hab x hx u hu
    apply hab
    · by_cases haw : a.1 = w
      · simp only [haw, if_pos] at hx
        exact (a.2.erase_sublist v).mem hx
      · simpa [haw] using hx
    · by_cases hbw : b.1 = w
      · simp only [hbw, if_pos] at hu
        exact (b.2.erase_sublist v).mem hu
      · simpa [hbw] using hu

theorem tableInv_try_add_variation (d : DictTable) (w v : String) (h : TableInv d) :
    TableInv (try_add_variation d w v).1 := by
  obtain ⟨hk, hp⟩ := h
  by_cases h1 : strip v = ""
  · have hid : (try_add_variation d w v).1 = d := by simp [try_add_variation, h1]
    rw [hid]; exact ⟨hk, hp⟩
  · by_cases h2 : low (strip v) = low w
    · have hid : (try_add_variation d w v).1 = d := by simp [try_add_variation, h1, h2]
      rw [hid]; exact ⟨hk, hp⟩
    · by_cases h3 : (lookupVars d w).any (fun u => low u == low (strip v)) = true
      · have hid : (try_add_variation d w v).1 = d := by
          simp [try_add_variation, h1, h2, h3]
        rw [hid]; exact ⟨hk, hp⟩
      · by_cases h4 : d.any
            (fun e => (e.1 != w) && e.2.any (fun u => low u == low (strip v))) = true
        · have hid : (try_add_variation d w v).1 = d := by
            simp [try_add_variation, h1, h2, h3, h4]
          rw [hid]; exact ⟨hk, hp⟩
        · have hres : (try_add_variation d w v).1
              = d.map (fun e => if e.1 = w then (e.1, e.2 ++ [strip v]) else e) := by
            simp [try_add_variation, h1, h2, h3, h4]
          rw [hres]
          have hg4 : ∀ e ∈ d, e.1 ≠ w → ∀ u ∈ e.2, ¬ low u = low (strip v) := by
            intro e he hew u hu hc
            apply h4
            rw [List.any_eq_true]
            refine ⟨e, he, ?_⟩
            rw [Bool.and_eq_true]
            refine ⟨bne_iff_ne.mpr hew, ?_⟩
            rw [List.any_eq_true]
            exact ⟨u, hu, beq_iff_eq.mpr hc⟩
          have hand := List.Pairwise.and (List.pairwise_map.mp hk) hp
          constructor
          · unfold KeysNodup
            rw [map_fst_map (fun e => by by_cases hew : e.1 = w <;> simp [hew])]
            exact hk
          · unfold VariantDisjoint
            rw [List.pairwise_map]
            refine hand.imp_of_mem ?_
            intro a b ha hb hab
            obtain ⟨hne, hdisj⟩ := hab
            intro x hx u hu
            by_cases haw : a.1 = w <;> by_cases hbw : b.1 = w
            · exact absurd (haw.trans hbw.symm) hne
            · simp only [haw, if_pos] at hx
              simp only [hbw, if_neg, ite_false] at hu
              rcases List.mem_append.mp hx with hx' | hx'
              · exact hdisj x hx' u hu
              · rw [List.mem_singleton] at hx'
                subst hx'
                exact fun hc => hg4 b hb hbw u hu hc.symm
            · simp only [haw, if_neg, ite_false] at hx
              simp only [hbw, if_pos] at hu
              rcases List.mem_append.mp hu with hu' | hu'
              · exact hdisj x hx u hu'
              · rw [List.mem_singleton] at hu'
                subst hu'
                exact hg4 a ha haw x hx
            · simp only [haw, ite_false] at hx
              simp only [hbw, ite_false] at hu
              exact hdisj x hx u hu

theorem try_add_variation_rejects_same_word (d : DictTable) (w v : String)
    (h : low (strip v) = low w) : try_add_variation d w v = (d, false) := by
  by_cases h1 : strip v = ""
  · simp [try_add_variation, h1]
  · simp [try_add_variation, h1, h]

theorem try_add_variation_rejects_duplicate (d : DictTable) (w v : String)
    (h : (lookupVars d w).any (fun u => low u == low (strip v)) = true) :
    try_add_variation d w v = (d, false) := by
  by_cases h1 : strip v = ""
  · simp [try_add_variation, h1]
  · by_cases h2 : low (strip v) = low w
    · simp [try_add_variation, h1, h2]
    · simp [try_add_variation, h1, h2, h]

theorem try_add_variation_rejects_conflict (d : DictTable) (w v : String)
    (h : d.any (fun e => (e.1 != w) && e.2.any (fun u => low u == low (strip v))) = true) :
    try_add_variation d w v = (d, false) := by
  by_cases h1 : strip v = ""
  · simp [try_add_variation, h1]
  · by_cases h2 : low (strip v) = low w
    · simp [try_add_variation, h1, h2]
    · by_cases h3 : (lookupVars d w).any (fun u => low u == low (strip v)) = true
      · simp [try_add_variation, h1, h2, h3]
      · simp [try_add_variation, h1, h2, h3, h]

/-- C7: every edit operation of the dictionary editor preserves the invariant
that a variant (compared case-insensitively) belongs to at most one canonical
word; adding a variation that is already used by another word, duplicates a
variation of the same word, or equals the canonical word itself leaves the
table unchanged and reports failure. -/
theorem dictionary_edits_preserve_invariant :
    (∀ d w, TableInv d → TableInv (add_word d w)) ∧
    (∀ d w, TableInv d → TableInv (remove_word d w)) ∧
    (∀ d w v, TableInv d → TableInv (try_add_variation d w v).1) ∧
    (∀ d w v, TableInv d → TableInv (remove_variation d w v)) ∧
    (∀ d w v, low (strip v) = low w → try_add_variation d w v = (d, false)) ∧
    (∀ d w v, (lookupVars d w).any (fun u => low u == low (strip v)) = true →
        try_add_variation d w v = (d, false)) ∧
    (∀ d w v,
        d.any (fun e => (e.1 != w) && e.2.any (fun u => low u == low (strip v))) = true →
        try_add_variation d w v = (d, false)) :=
  ⟨tableInv_add_word, tableInv_remove_word, tableInv_try_add_variation,
   tableInv_remove_variation, try_add_variation_rejects_same_word,
   try_add_variation_rejects_duplicate, try_add_variation_rejects_conflict⟩

/-- Witness for C7 on a concrete table: a successful addition preserves the
invariant, and a variation already owned by another word is rejected. -/
theorem dictionary_edits_preserve_invariant_witness :
    TableInv (try_add_variation [("iObeya", ["iobare"])] "iObeya" "obeya").1 ∧
    try_add_variation [("iObeya", ["iobare"]), ("Kanban", [])] "Kanban" "IOBARE"
      = ([("iObeya", ["iobare"]), ("Kanban", [])], false) :=
  ⟨dictionary_edits_preserve_invariant.2.2.1 _ _ _
      ⟨by unfold KeysNodup; decide, by unfold VariantDisjoint; decide⟩,
   dictionary_edits_preserve_invariant.2.2.2.2.2.2 _ _ _ (by decide)⟩

end Resonance
